/-
  Verification of the mesh-to-cluster assignment pipeline (Read.py).

  The program parses a text mesh format into nodes and tetrahedral elements,
  computes per-element centroids, and assigns every element to the nearest
  of several point-cloud clusters via nearest-point queries.

  Modelling conventions:
  * Python floats are modelled by ℚ (exact arithmetic).
  * `scipy.spatial.KDTree.query(c, k=1)` returns the Euclidean distance to the
    nearest point.  The program only ever *compares* such distances with `<`;
    since `Real.sqrt` is strictly monotone on nonnegatives, comparing Euclidean
    distances is equivalent to comparing squared Euclidean distances, so the
    embedding works with squared distances (`sqDist`) throughout.  All claims
    are about which cluster wins / ties / ordering, hence invariant under this
    strictly-monotone reparametrisation.
  * Python exceptions are modelled with `Except` / `Option`; the distinction
    between `ValueError` (caught by `process_element`) and `IndexError`
    (uncaught, propagates) is kept explicit.
  * `float('inf')` is modelled by `⊤ : WithTop ℚ`.
  * A text line is a list of already-tokenised numeric fields (`List ℚ`);
    `int(tok)` succeeds exactly on fields with denominator 1.
  * `multiprocessing.Pool.map` preserves submission order and re-raises a
    worker's exception; it is modelled by an order-preserving exception-
    propagating map (`poolMap`).
-/
import Mathlib

namespace ReadPy

/-- A 3-D point, as used for node coordinates and cluster vertices. -/
abbrev Point : Type := ℚ × ℚ × ℚ

/-- A parsed node `(node_id, x, y, z)` (Read.py line 26). -/
abbrev Node : Type := ℤ × ℚ × ℚ × ℚ

/-- A parsed element `(element_id, node_ids)` (Read.py line 35);
`node_ids` is already deduplicated by the parser. -/
abbrev Element : Type := ℤ × List ℤ

/-- Squared Euclidean distance between two points.  Stands in for the
Euclidean distance returned by `KDTree.query` / `np.linalg.norm`; the program
only compares distances, and comparison is invariant under squaring. -/
def sqDist (p q : Point) : ℚ :=
  (p.1 - q.1) ^ 2 + (p.2.1 - q.2.1) ^ 2 + (p.2.2 - q.2.2) ^ 2

/-- `KDTree(pts).query(c, k=1)`: the (squared) distance from `c` to the
nearest point of `pts`; `none` when `pts` is empty (main never builds a tree
from an empty vertex list, Read.py line 135). -/
def kdQuery (pts : List Point) (c : Point) : Option ℚ :=
  match pts with
  | [] => none
  | p :: ps => some (ps.foldl (fun d q => min d (sqDist c q)) (sqDist c p))

/-- `list(dict.fromkeys(l))` (Read.py line 34): deduplicate a list keeping the
first occurrence of each value, in order of first appearance (structurally:
keep the head, deduplicate the tail, drop later copies of the head). -/
def dedupFirst : List ℤ → List ℤ
  | [] => []
  | x :: xs => x :: (dedupFirst xs).filter (fun y => y ≠ x)

/-- Python list indexing `l[i]` with an `ℤ` index: nonnegative indices are
positional, negative indices count from the end, and anything outside
`[-len l, len l)` is an `IndexError` (`none`). -/
def pyGet? {α : Type} (l : List α) (i : ℤ) : Option α :=
  if 0 ≤ i then l.get? i.toNat
  else if -(l.length : ℤ) ≤ i then l.get? ((l.length : ℤ) + i).toNat
  else none

/-- The coordinate triple of a node: `nodes[...][1:4]` (Read.py line 71). -/
def nodeCoords (nd : Node) : Point := nd.2

/-- The list comprehension
`[np.array(nodes[i - 1][1:4]) for i in node_ids]` (Read.py line 71):
resolves each node id to its coordinates, failing (`IndexError`) on the first
id whose index `i - 1` is out of range. -/
def resolveNodes (nodes : List Node) : List ℤ → Option (List Point)
  | [] => some []
  | i :: is =>
    match pyGet? nodes (i - 1) with
    | none => none
    | some nd =>
      match resolveNodes nodes is with
      | none => none
      | some ps => some (nodeCoords nd :: ps)

/-- `np.mean(node_coords, axis=0)` (Read.py line 72): the componentwise
arithmetic mean of a list of points. -/
def centerOf (cs : List Point) : Point :=
  (((cs.map fun p => p.1).sum) / (cs.length : ℚ),
   ((cs.map fun p => p.2.1).sum) / (cs.length : ℚ),
   ((cs.map fun p => p.2.2).sum) / (cs.length : ℚ))

/-- The two exceptions `find_element_center` can raise: `ValueError` for a
wrong number of node ids (Read.py line 69), `IndexError` for an unresolvable
node id (Read.py line 71). -/
inductive CenterError : Type
  | valueError : CenterError
  | indexError : CenterError
deriving DecidableEq, Repr

/-- Equality of modelled exception results is decidable, so concrete runs can
be checked by evaluation. -/
instance {ε α : Type} [DecidableEq ε] [DecidableEq α] :
    DecidableEq (Except ε α) := fun a b =>
  match a, b with
  | .error x, .error y =>
    if h : x = y then isTrue (by rw [h])
    else isFalse (fun hh => h (Except.error.inj hh))
  | .error _, .ok _ => isFalse (fun hh => Except.noConfusion hh)
  | .ok _, .error _ => isFalse (fun hh => Except.noConfusion hh)
  | .ok x, .ok y =>
    if h : x = y then isTrue (by rw [h])
    else isFalse (fun hh => h (Except.ok.inj hh))

/-- `find_element_center(element, nodes)` (Read.py lines 61–73). -/
def find_element_center (element : Element) (nodes : List Node) :
    Except CenterError Point :=
  if element.2.length ≠ 4 then .error .valueError
  else
    match resolveNodes nodes element.2 with
    | none => .error .indexError
    | some cs => .ok (centerOf cs)

/-- The nearest-point query result of one entry of `kd_trees`: `none` when the
tree is absent (empty cluster) — such entries are skipped by the loop. -/
def qd (c : Point) (t : Option (List Point)) : Option ℚ :=
  match t with
  | none => none
  | some pts => kdQuery pts c

/-- The cluster-scan loop of `process_element` (Read.py lines 94–102), as
explicit state passing: `idx` is the current `enumerate` counter, `minDist`
the running `min_dist` (`⊤` = `float('inf')`), `best` the running
`closest_cluster` (initially `-1`). -/
def scanFrom (c : Point) : List (Option (List Point)) → ℕ → WithTop ℚ → ℤ →
    WithTop ℚ × ℤ
  | [], _, minDist, best => (minDist, best)
  | t :: ts, idx, minDist, best =>
    match qd c t with
    | none => scanFrom c ts (idx + 1) minDist best
    | some d =>
      if (d : WithTop ℚ) < minDist then
        scanFrom c ts (idx + 1) (d : WithTop ℚ) ((idx : ℤ) + 1)
      else scanFrom c ts (idx + 1) minDist best

/-- `process_element((element, nodes, kd_trees))` (Read.py lines 85–104).
`Except.error ()` models an uncaught exception escaping the worker
(only `ValueError` is caught, Read.py line 90); `Except.ok none` models
`return None`. -/
def process_element (element : Element) (nodes : List Node)
    (kd_trees : List (Option (List Point))) : Except Unit (Option (ℤ × ℤ)) :=
  match find_element_center element nodes with
  | .error .valueError => .ok none
  | .error .indexError => .error ()
  | .ok c =>
    let r := scanFrom c kd_trees 0 ⊤ (-1)
    .ok (if r.2 ≠ -1 then some (element.1, r.2) else none)

/-- Whether `process_element` prints the per-element diagnostic
(Read.py line 91): exactly when `find_element_center` raises `ValueError`. -/
def emitsDiagnostic (element : Element) (nodes : List Node) : Bool :=
  match find_element_center element nodes with
  | .error .valueError => true
  | _ => false

/-- `kd_trees = [KDTree(v) if len(v) > 0 else None for v in all_vertices]`
(Read.py line 135). -/
def buildTrees (all_vertices : List (List Point)) : List (Option (List Point)) :=
  all_vertices.map fun v => if 0 < v.length then some v else none

/-- `pool.map(process_element, ...)` (Read.py line 139): an order-preserving
map over the submitted elements; a worker's uncaught exception is re-raised
by the pool and aborts the run. -/
def poolMap (nodes : List Node) (kd_trees : List (Option (List Point))) :
    List Element → Except Unit (List (Option (ℤ × ℤ)))
  | [] => .ok []
  | e :: es =>
    match process_element e nodes kd_trees with
    | .error u => .error u
    | .ok r =>
      match poolMap nodes kd_trees es with
      | .error u => .error u
      | .ok rs => .ok (r :: rs)

/-- The parallel map followed by the `None` filter
(Read.py lines 138–142): the gathered results in submission order, with
excluded elements dropped. -/
def runPipeline (elements : List Element) (nodes : List Node)
    (kd_trees : List (Option (List Point))) : Except Unit (List (ℤ × ℤ)) :=
  match poolMap nodes kd_trees elements with
  | .error u => .error u
  | .ok results => .ok (results.filterMap id)

/-! ### The parser (`read_mesh_file`, Read.py lines 9–37) -/

/-- `int(tok)`: succeeds exactly on an integral numeric field. -/
def parseInt? (q : ℚ) : Option ℤ :=
  if q.den = 1 then some q.num else none

/-- `list(map(int, fields))`: all fields parsed as integers, failing on the
first non-integral one. -/
def parseIntList : List ℚ → Option (List ℤ)
  | [] => some []
  | q :: qs =>
    match parseInt? q with
    | none => none
    | some i =>
      match parseIntList qs with
      | none => none
      | some is => some (i :: is)

/-- One node line (Read.py lines 23–26): `node_id = int(line[0])`,
`x, y, z = map(float, line[1:4])` — needs at least 4 fields (unpacking three
values from `line[1:4]`), extra fields are ignored. -/
def parseNodeLine (l : List ℚ) : Option Node :=
  match l with
  | i :: x :: y :: z :: _ =>
    match parseInt? i with
    | none => none
    | some nid => some (nid, x, y, z)
  | _ => none

/-- One element line (Read.py lines 32–35): `element_id = int(line[10])`
(an `IndexError` if the line has fewer than 11 fields),
`node_ids = list(dict.fromkeys(map(int, line[11:19])))` — the slice silently
yields however many of the 8 fields are present. -/
def parseElemLine (l : List ℚ) : Option Element :=
  match l.get? 10 with
  | none => none
  | some f10 =>
    match parseInt? f10 with
    | none => none
    | some eid =>
      match parseIntList ((l.drop 11).take 8) with
      | none => none
      | some raw => some (eid, dedupFirst raw)

/-- The node-reading loop (Read.py lines 22–26): read exactly `k` lines,
failing if a line is malformed or the stream is exhausted (at EOF `readline`
returns `''`, whose split has no field 0). -/
def readNodes : ℕ → List (List ℚ) → Option (List Node × List (List ℚ))
  | 0, ls => some ([], ls)
  | _ + 1, [] => none
  | k + 1, l :: ls =>
    match parseNodeLine l with
    | none => none
    | some nd =>
      match readNodes k ls with
      | none => none
      | some (nds, rest) => some (nd :: nds, rest)

/-- The element-reading loop (Read.py lines 31–35). -/
def readElems : ℕ → List (List ℚ) → Option (List Element × List (List ℚ))
  | 0, ls => some ([], ls)
  | _ + 1, [] => none
  | k + 1, l :: ls =>
    match parseElemLine l with
    | none => none
    | some el =>
      match readElems k ls with
      | none => none
      | some (els, rest) => some (el :: els, rest)

/-- `read_mesh_file` (Read.py lines 9–37) on a tokenised line stream:
header line with exactly two integer counts, `num_nodes` node lines, one
unconditionally skipped separator line, `num_elements` element lines.
A negative declared count behaves like Python `range`: zero iterations. -/
def read_mesh_file (ls : List (List ℚ)) :
    Option (ℤ × ℤ × List Node × List Element) :=
  match ls with
  | [] => none
  | header :: rest =>
    match header with
    | [n0, m0] =>
      match parseInt? n0 with
      | none => none
      | some n =>
        match parseInt? m0 with
        | none => none
        | some m =>
          match readNodes n.toNat rest with
          | none => none
          | some (nodes, rest1) =>
            match readElems m.toNat (rest1.drop 1) with
            | none => none
            | some (elems, _) => some (n, m, nodes, elems)
    | _ => none

/-- The claim C6's numbering (spec §3, "Assignment"): the 1-based ordinal of
the cluster at 0-based position `k` among the *non-empty* clusters in
discovery order.  Stated from the spec's words, to be compared with the
code's `cluster_idx + 1` numbering. -/
def nonemptyOrdinal (cs : List (List Point)) (k : ℕ) : ℕ :=
  ((cs.take (k + 1)).filter fun v => ¬ v.isEmpty).length

/-- The infimum of the per-cluster query results seen by the scan loop:
`⊤` when no tree answers, otherwise the least answered (squared) distance. -/
def infDists (c : Point) (ts : List (Option (List Point))) : WithTop ℚ :=
  ts.foldr
    (fun t m =>
      match qd c t with
      | some d => min (d : WithTop ℚ) m
      | none => m) ⊤

/-- A well-formed node line of the mesh format: `id x y z`. -/
def wfNodeLine (n : Node) : List ℚ :=
  (n.1 : ℚ) :: n.2.1 :: n.2.2.1 :: n.2.2.2 :: []

/-- A well-formed element line of the mesh format: 10 leading fields, then the
element id at field index 10, then the raw candidate node ids. -/
def wfElemLine (x : List ℚ × ℤ × List ℤ) : List ℚ :=
  x.1 ++ (x.2.1 : ℚ) :: x.2.2.map (fun (i : ℤ) => (i : ℚ))

/-! ## Lemmas about deduplication (`dict.fromkeys`) -/

/-- Every value of the input survives deduplication, and nothing else. -/
theorem mem_dedupFirst (x : ℤ) : ∀ l : List ℤ, x ∈ dedupFirst l ↔ x ∈ l := by
  intro l
  induction l with
  | nil => simp [dedupFirst]
  | cons y ys ih =>
    rw [dedupFirst]
    by_cases hxy : x = y
    · subst hxy; simp
    · simp only [List.mem_cons, List.mem_filter, ih]
      constructor
      · rintro (h | ⟨h, _⟩)
        · exact absurd h hxy
        · exact Or.inr h
      · rintro (h | h)
        · exact absurd h hxy
        · exact Or.inr ⟨h, by simpa using hxy⟩

/-- Deduplication produces a list without duplicates. -/
theorem dedupFirst_nodup : ∀ l : List ℤ, (dedupFirst l).Nodup := by
  intro l
  induction l with
  | nil => simp [dedupFirst]
  | cons y ys ih =>
    rw [dedupFirst]
    refine List.nodup_cons.mpr ⟨?_, ih.filter _⟩
    intro hmem
    simp [List.mem_filter] at hmem

/-- Deduplication is a sublist of the input: surviving occurrences keep their
relative order. -/
theorem dedupFirst_sublist : ∀ l : List ℤ, (dedupFirst l).Sublist l := by
  intro l
  induction l with
  | nil => simp [dedupFirst]
  | cons y ys ih =>
    rw [dedupFirst]
    exact ((List.filter_sublist _).trans ih).cons₂ y

/-- Deduplication lists values in order of their *first* appearance: the
first-occurrence indices are strictly increasing along the result. -/
theorem dedupFirst_first_occurrence : ∀ l : List ℤ,
    (dedupFirst l).Pairwise (fun a b => l.indexOf a < l.indexOf b) := by
  intro l
  induction l with
  | nil => simp [dedupFirst]
  | cons y ys ih =>
    rw [dedupFirst]
    refine List.pairwise_cons.mpr ⟨?_, ?_⟩
    · intro b hb
      have hbne : b ≠ y := by
        have := List.of_mem_filter hb
        simpa using this
      rw [List.indexOf_cons_self, List.indexOf_cons_ne _ hbne.symm]
      exact Nat.succ_pos _
    · have hsub : ((dedupFirst ys).filter (fun z => z ≠ y)).Pairwise
          (fun a b => ys.indexOf a < ys.indexOf b) :=
        ih.sublist (List.filter_sublist _)
      refine List.Pairwise.imp_of_mem ?_ hsub
      intro a b ha hb hab
      have hane : a ≠ y := by simpa using List.of_mem_filter ha
      have hbne : b ≠ y := by simpa using List.of_mem_filter hb
      rw [List.indexOf_cons_ne _ hane.symm, List.indexOf_cons_ne _ hbne.symm]
      omega

/-! ## Lemmas about the parser -/

/-- `int` succeeds on a field that carries an integer. -/
theorem parseInt_intCast (i : ℤ) : parseInt? (i : ℚ) = some i := by
  simp [parseInt?, Rat.den_intCast, Rat.num_intCast]

/-- `map(int, ...)` succeeds on a list of integer-valued fields. -/
theorem parseIntList_map : ∀ is : List ℤ,
    parseIntList (is.map fun (i : ℤ) => (i : ℚ)) = some is := by
  intro is
  induction is with
  | nil => rfl
  | cons i is ih =>
    simp only [List.map_cons, parseIntList, parseInt_intCast, ih]

/-- A well-formed node line parses back to its node. -/
theorem parseNodeLine_wf (n : Node) : parseNodeLine (wfNodeLine n) = some n := by
  simp only [parseNodeLine, wfNodeLine, parseInt_intCast]

/-- A well-formed element line with 10 leading fields and exactly 8 candidate
ids parses to the element id at field 10 and the deduplicated candidates. -/
theorem parseElemLine_wf (pre : List ℚ) (eid : ℤ) (nids : List ℤ)
    (hpre : pre.length = 10) (hids : nids.length = 8) :
    parseElemLine (wfElemLine (pre, eid, nids)) = some (eid, dedupFirst nids) := by
  have hget : (wfElemLine (pre, eid, nids)).get? 10 = some ((eid : ℚ)) := by
    simp only [wfElemLine]
    rw [List.get?_append_right (by omega)]
    simp only [hpre, Nat.sub_self, List.get?]
  have hdrop : (wfElemLine (pre, eid, nids)).drop 11 = nids.map (fun (i : ℤ) => (i : ℚ)) := by
    have hsh : wfElemLine (pre, eid, nids) =
        (pre ++ [(eid : ℚ)]) ++ nids.map (fun (i : ℤ) => (i : ℚ)) := by
      simp only [wfElemLine, List.append_assoc, List.singleton_append]
    rw [hsh, List.drop_left' (by rw [List.length_append, hpre]; rfl)]
  have htake : (nids.map (fun (i : ℤ) => (i : ℚ))).take 8 = nids.map (fun (i : ℤ) => (i : ℚ)) := by
    apply List.take_of_length_le
    rw [List.length_map, hids]
  simp only [parseElemLine, hget, parseInt_intCast, hdrop, htake, parseIntList_map]

/-- The node-reading loop consumes exactly the well-formed node lines and
returns the nodes, leaving the rest of the stream untouched. -/
theorem readNodes_wf : ∀ (nd : List Node) (t : List (List ℚ)),
    readNodes nd.length (nd.map wfNodeLine ++ t) = some (nd, t) := by
  intro nd
  induction nd with
  | nil => intro t; rfl
  | cons n ns ih =>
    intro t
    simp only [List.length_cons, List.map_cons, List.cons_append, readNodes,
      parseNodeLine_wf, List.append_eq, ih]

/-- The element-reading loop consumes exactly the well-formed element lines
and returns the parsed elements, leaving the rest untouched. -/
theorem readElems_wf : ∀ (ed : List (List ℚ × ℤ × List ℤ)) (t : List (List ℚ)),
    (∀ x ∈ ed, x.1.length = 10 ∧ x.2.2.length = 8) →
    readElems ed.length (ed.map wfElemLine ++ t) =
      some (ed.map (fun x => (x.2.1, dedupFirst x.2.2)), t) := by
  intro ed
  induction ed with
  | nil => intro t _; rfl
  | cons x xs ih =>
    intro t h
    have hx := h x (List.mem_cons_self x xs)
    obtain ⟨pre, eid, nids⟩ := x
    simp only [List.length_cons, List.map_cons, List.cons_append, readElems,
      parseElemLine_wf pre eid nids hx.1 hx.2, List.append_eq,
      ih t (fun y hy => h y (List.mem_cons_of_mem _ hy))]

/-- Full parser run on a well-formed stream: header, `N` node lines, one
skipped separator line, `M` element lines, trailing junk ignored. -/
theorem read_mesh_file_wf (N M : ℕ) (nd : List Node)
    (ed : List (List ℚ × ℤ × List ℤ)) (sep : List ℚ) (rest : List (List ℚ))
    (hN : nd.length = N) (hM : ed.length = M)
    (hed : ∀ x ∈ ed, x.1.length = 10 ∧ x.2.2.length = 8) :
    read_mesh_file
        (((N : ℚ) :: (M : ℚ) :: []) ::
          (nd.map wfNodeLine ++ sep :: (ed.map wfElemLine ++ rest)))
      = some ((N : ℤ), (M : ℤ), nd, ed.map (fun x => (x.2.1, dedupFirst x.2.2))) := by
  subst hN hM
  have hpn : parseInt? ((nd.length : ℕ) : ℚ) = some ((nd.length : ℕ) : ℤ) := by
    simp [parseInt?]
  have hpm : parseInt? ((ed.length : ℕ) : ℚ) = some ((ed.length : ℕ) : ℤ) := by
    simp [parseInt?]
  have htn : (((nd.length : ℕ) : ℤ)).toNat = nd.length := Int.toNat_natCast _
  have htm : (((ed.length : ℕ) : ℤ)).toNat = ed.length := Int.toNat_natCast _
  simp only [read_mesh_file, hpn, hpm, htn, htm, readNodes_wf nd,
    List.drop_succ_cons, List.drop_zero, readElems_wf ed _ hed]

/-! ## Lemmas about the cluster-scan loop -/

theorem infDists_nil (c : Point) : infDists c [] = ⊤ := rfl

theorem infDists_cons_none (c : Point) {t : Option (List Point)}
    (ts : List (Option (List Point))) (h : qd c t = none) :
    infDists c (t :: ts) = infDists c ts := by
  simp only [infDists, List.foldr_cons, h]

theorem infDists_cons_some (c : Point) {t : Option (List Point)} {d : ℚ}
    (ts : List (Option (List Point))) (h : qd c t = some d) :
    infDists c (t :: ts) = min (d : WithTop ℚ) (infDists c ts) := by
  simp only [infDists, List.foldr_cons, h]

/-- The loop infimum is a lower bound for every answered query. -/
theorem infDists_le (c : Point) :
    ∀ (ts : List (Option (List Point))), ∀ t ∈ ts, ∀ d : ℚ,
      qd c t = some d → infDists c ts ≤ (d : WithTop ℚ) := by
  intro ts
  induction ts with
  | nil => intro t ht; cases ht
  | cons t0 ts ih =>
    intro t ht d hd
    rcases List.mem_cons.mp ht with h | h
    · subst h
      rw [infDists_cons_some c ts hd]
      exact min_le_left _ _
    · have hle := ih t h d hd
      cases hq : qd c t0 with
      | none => rw [infDists_cons_none c ts hq]; exact hle
      | some d0 =>
        rw [infDists_cons_some c ts hq]
        exact le_trans (min_le_right _ _) hle

/-- Any lower bound of every answered query bounds the loop infimum. -/
theorem le_infDists (c : Point) (x : WithTop ℚ) :
    ∀ (ts : List (Option (List Point))),
      (∀ t ∈ ts, ∀ d : ℚ, qd c t = some d → x ≤ (d : WithTop ℚ)) →
      x ≤ infDists c ts := by
  intro ts
  induction ts with
  | nil => intro _; exact le_top
  | cons t0 ts ih =>
    intro h
    have hrest : x ≤ infDists c ts :=
      ih fun t ht d hd => h t (List.mem_cons_of_mem _ ht) d hd
    cases hq : qd c t0 with
    | none => rw [infDists_cons_none c ts hq]; exact hrest
    | some d0 =>
      rw [infDists_cons_some c ts hq]
      exact le_min (h t0 (List.mem_cons_self _ _) d0 hq) hrest

/-- The first component of the scan is the minimum of the incoming bound and
all answered (squared) distances. -/
theorem scanFrom_fst (c : Point) :
    ∀ (ts : List (Option (List Point))) (idx : ℕ) (md : WithTop ℚ) (best : ℤ),
      (scanFrom c ts idx md best).1 = min md (infDists c ts) := by
  intro ts
  induction ts with
  | nil =>
    intro idx md best
    simp [scanFrom, infDists_nil, min_eq_left le_top]
  | cons t ts ih =>
    intro idx md best
    cases hq : qd c t with
    | none =>
      simp only [scanFrom, hq, ih, infDists_cons_none c ts hq]
    | some d =>
      rw [infDists_cons_some c ts hq]
      simp only [scanFrom, hq]
      by_cases hlt : (d : WithTop ℚ) < md
      · rw [if_pos hlt, ih, ← min_assoc, min_eq_right hlt.le]
      · rw [if_neg hlt, ih, ← min_assoc, min_eq_left (not_lt.mp hlt)]

/-- If no answered query strictly beats the incoming bound, the running best
index survives the scan unchanged. -/
theorem scanFrom_snd_skip (c : Point) :
    ∀ (ts : List (Option (List Point))) (idx : ℕ) (md : WithTop ℚ) (best : ℤ),
      (∀ t ∈ ts, ∀ d : ℚ, qd c t = some d → md ≤ (d : WithTop ℚ)) →
      (scanFrom c ts idx md best).2 = best := by
  intro ts
  induction ts with
  | nil => intro idx md best _; rfl
  | cons t ts ih =>
    intro idx md best h
    cases hq : qd c t with
    | none =>
      simp only [scanFrom, hq]
      exact ih _ _ _ fun t' ht' d hd => h t' (List.mem_cons_of_mem _ ht') d hd
    | some d =>
      have hle : md ≤ (d : WithTop ℚ) := h t (List.mem_cons_self _ _) d hq
      simp only [scanFrom, hq, if_neg (not_lt.mpr hle)]
      exact ih _ _ _ fun t' ht' d' hd' => h t' (List.mem_cons_of_mem _ ht') d' hd'

/-- If some answered query strictly beats the incoming bound, the scan ends at
the *first* position attaining the final minimum: the winning position `k`
answers the minimum distance, and every earlier answered position is strictly
worse. -/
theorem scanFrom_snd_improve (c : Point) :
    ∀ (ts : List (Option (List Point))) (idx : ℕ) (md : WithTop ℚ) (best : ℤ),
      infDists c ts < md →
      ∃ (k : ℕ) (t : Option (List Point)) (d : ℚ),
        ts.get? k = some t ∧ qd c t = some d ∧
        ((d : WithTop ℚ)) = infDists c ts ∧
        (scanFrom c ts idx md best).2 = (idx : ℤ) + 1 + (k : ℤ) ∧
        ∀ (j : ℕ) (t' : Option (List Point)) (d' : ℚ), j < k →
          ts.get? j = some t' → qd c t' = some d' → d < d' := by
  intro ts
  induction ts with
  | nil =>
    intro idx md best h
    rw [infDists_nil] at h
    exact absurd h (not_top_lt)
  | cons t0 ts ih =>
    intro idx md best h
    cases hq : qd c t0 with
    | none =>
      rw [infDists_cons_none c ts hq] at h
      obtain ⟨k, t, d, hget, hqd, hmin, hscan, hfirst⟩ := ih (idx + 1) md best h
      refine ⟨k + 1, t, d, by simpa using hget, hqd, ?_, ?_, ?_⟩
      · rw [infDists_cons_none c ts hq]; exact hmin
      · simp only [scanFrom, hq, hscan]; push_cast; ring
      · intro j t' d' hj hget' hq'
        cases j with
        | zero =>
          simp only [List.get?] at hget'
          injection hget' with h'
          subst h'
          rw [hq] at hq'
          cases hq'
        | succ j' =>
          exact hfirst j' t' d' (Nat.lt_of_succ_lt_succ hj) (by simpa using hget') hq'
    | some d0 =>
      by_cases hlt : (d0 : WithTop ℚ) < md
      · by_cases himp : infDists c ts < (d0 : WithTop ℚ)
        · -- a strictly better cluster appears later
          obtain ⟨k, t, d, hget, hqd, hmin, hscan, hfirst⟩ :=
            ih (idx + 1) (d0 : WithTop ℚ) ((idx : ℤ) + 1) himp
          refine ⟨k + 1, t, d, by simpa using hget, hqd, ?_, ?_, ?_⟩
          · rw [infDists_cons_some c ts hq, min_eq_right himp.le]; exact hmin
          · simp only [scanFrom, hq, if_pos hlt, hscan]; push_cast; ring
          · intro j t' d' hj hget' hq'
            cases j with
            | zero =>
              simp only [List.get?] at hget'
              injection hget' with h'
              subst h'
              rw [hq] at hq'
              injection hq' with h''
              have hlt' : (d : WithTop ℚ) < (d0 : WithTop ℚ) := by
                rw [hmin]; exact himp
              rw [← h'']
              exact_mod_cast hlt'
            | succ j' =>
              exact hfirst j' t' d' (Nat.lt_of_succ_lt_succ hj) (by simpa using hget') hq'
        · -- the head already attains the minimum; nothing later beats it
          push_neg at himp
          refine ⟨0, t0, d0, rfl, hq, ?_, ?_, ?_⟩
          · rw [infDists_cons_some c ts hq, min_eq_left himp]
          · simp only [scanFrom, hq, if_pos hlt]
            rw [scanFrom_snd_skip c ts (idx + 1) (d0 : WithTop ℚ) ((idx : ℤ) + 1)
              (fun t' ht' d' hd' => le_trans himp (infDists_le c ts t' ht' d' hd'))]
            push_cast; ring
          · intro j _ _ hj _ _; exact absurd hj (Nat.not_lt_zero j)
      · -- the head does not beat the incoming bound; the minimum is later
        have hd0 : md ≤ (d0 : WithTop ℚ) := not_lt.mp hlt
        have hinf : infDists c ts < md := by
          rw [infDists_cons_some c ts hq] at h
          rcases min_lt_iff.mp h with h1 | h1
          · exact absurd hd0 (not_le.mpr h1)
          · exact h1
        have hinfd0 : infDists c ts < (d0 : WithTop ℚ) := lt_of_lt_of_le hinf hd0
        obtain ⟨k, t, d, hget, hqd, hmin, hscan, hfirst⟩ := ih (idx + 1) md best hinf
        have hdd0 : (d : WithTop ℚ) < (d0 : WithTop ℚ) := by
          rw [hmin]; exact hinfd0
        refine ⟨k + 1, t, d, by simpa using hget, hqd, ?_, ?_, ?_⟩
        · rw [infDists_cons_some c ts hq, min_eq_right (le_of_lt hinfd0)]
          exact hmin
        · simp only [scanFrom, hq, if_neg hlt, hscan]; push_cast; ring
        · intro j t' d' hj hget' hq'
          cases j with
          | zero =>
            simp only [List.get?] at hget'
            injection hget' with h'
            subst h'
            rw [hq] at hq'
            injection hq' with h''
            rw [← h'']
            exact_mod_cast hdd0
          | succ j' =>
            exact hfirst j' t' d' (Nat.lt_of_succ_lt_succ hj) (by simpa using hget') hq'

/-! ## Bridging lemmas -/

/-- A non-empty point set always answers a nearest query. -/
theorem kdQuery_isSome (pts : List Point) (c : Point) (h : pts ≠ []) :
    ∃ d, kdQuery pts c = some d := by
  cases pts with
  | nil => exact absurd rfl h
  | cons p ps => exact ⟨_, rfl⟩

/-- A non-empty cluster appears in `kd_trees` as a present tree at the same
position. -/
theorem buildTrees_get?_of_ne (cs : List (List Point)) (k : ℕ) (v : List Point)
    (h : cs.get? k = some v) (hne : v ≠ []) :
    (buildTrees cs).get? k = some (some v) := by
  rw [buildTrees, List.get?_map, h]
  simp only [Option.map_some']
  rw [if_pos (List.length_pos.mpr hne)]

/-- A tree that answers a query comes from a non-empty cluster at the same
position. -/
theorem buildTrees_get?_inv (cs : List (List Point)) (k : ℕ)
    (t : Option (List Point)) (c : Point) (d : ℚ)
    (h : (buildTrees cs).get? k = some t) (hq : qd c t = some d) :
    ∃ v, cs.get? k = some v ∧ v ≠ [] ∧ t = some v := by
  rw [buildTrees, List.get?_map] at h
  cases hcs : cs.get? k with
  | none => rw [hcs] at h; cases h
  | some v =>
    rw [hcs] at h
    simp only [Option.map_some', Option.some.injEq] at h
    by_cases hv : 0 < v.length
    · rw [if_pos hv] at h
      exact ⟨v, rfl, List.length_pos.mp hv, h.symm⟩
    · rw [if_neg hv] at h
      rw [← h] at hq
      simp [qd] at hq

/-- `process_element` when the centroid computation succeeds. -/
theorem process_element_center_ok {e : Element} {nodes : List Node} {c : Point}
    (h : find_element_center e nodes = .ok c)
    (ts : List (Option (List Point))) :
    process_element e nodes ts =
      .ok (if (scanFrom c ts 0 ⊤ (-1)).2 ≠ -1
             then some (e.1, (scanFrom c ts 0 ⊤ (-1)).2) else none) := by
  simp only [process_element, h]

/-- `process_element` when the element does not have exactly 4 node ids:
the `ValueError` is caught and the element is skipped with a diagnostic. -/
theorem process_element_invalid {e : Element} (nodes : List Node)
    (ts : List (Option (List Point))) (h : e.2.length ≠ 4) :
    process_element e nodes ts = .ok none := by
  simp only [process_element, find_element_center, if_pos h]

/-- `find_element_center` raises `ValueError` exactly on a wrong id count. -/
theorem find_element_center_invalid {e : Element} (nodes : List Node)
    (h : e.2.length ≠ 4) :
    find_element_center e nodes = .error .valueError := by
  simp only [find_element_center, if_pos h]

/-- Queried (squared) distances are nonnegative. -/
theorem kdQuery_nonneg (pts : List Point) (c : Point) (d : ℚ)
    (h : kdQuery pts c = some d) : 0 ≤ d := by
  cases pts with
  | nil => cases h
  | cons p ps =>
    have hfold : ∀ (l : List Point) (a : ℚ), 0 ≤ a →
        0 ≤ l.foldl (fun acc q => min acc (sqDist c q)) a := by
      intro l
      induction l with
      | nil => intro a ha; exact ha
      | cons q l ihl =>
        intro a ha
        exact ihl _ (le_min ha (by unfold sqDist; positivity))
    injection h with h'
    rw [← h']
    exact hfold ps (sqDist c p) (by unfold sqDist; positivity)

/-- `poolMap` distributes over list append. -/
theorem poolMap_append (nodes : List Node) (ts : List (Option (List Point))) :
    ∀ xs ys : List Element,
      poolMap nodes ts (xs ++ ys) =
        (poolMap nodes ts xs).bind
          (fun rx => (poolMap nodes ts ys).map (fun ry => rx ++ ry)) := by
  intro xs ys
  induction xs with
  | nil =>
    simp only [List.nil_append, poolMap]
    cases poolMap nodes ts ys with
    | error u => rfl
    | ok ry => simp [Except.bind, Except.map]
  | cons x xs ih =>
    cases hx : process_element x nodes ts with
    | error u => simp only [List.cons_append, poolMap, hx]; rfl
    | ok r =>
      simp only [List.cons_append, poolMap, hx, List.append_eq]
      rw [ih]
      cases poolMap nodes ts xs with
      | error u => rfl
      | ok rx =>
        cases poolMap nodes ts ys with
        | error u => rfl
        | ok ry => rfl

/-- Inversion of a successful `poolMap` over an append. -/
theorem poolMap_append_ok (nodes : List Node) (ts : List (Option (List Point)))
    {xs ys : List Element} {rs : List (Option (ℤ × ℤ))}
    (h : poolMap nodes ts (xs ++ ys) = .ok rs) :
    ∃ rx ry, poolMap nodes ts xs = .ok rx ∧ poolMap nodes ts ys = .ok ry ∧
      rs = rx ++ ry := by
  rw [poolMap_append] at h
  cases hx : poolMap nodes ts xs with
  | error u => rw [hx] at h; cases h
  | ok rx =>
    rw [hx] at h
    cases hy : poolMap nodes ts ys with
    | error u => rw [hy] at h; cases h
    | ok ry =>
      rw [hy] at h
      simp only [Except.bind, Except.map, Except.ok.injEq] at h
      exact ⟨rx, ry, rfl, rfl, h.symm⟩

/-- Inversion of a successful `poolMap` over a cons. -/
theorem poolMap_cons_ok (nodes : List Node) (ts : List (Option (List Point)))
    {e : Element} {es : List Element} {rs : List (Option (ℤ × ℤ))}
    (h : poolMap nodes ts (e :: es) = .ok rs) :
    ∃ r rest, process_element e nodes ts = .ok r ∧
      poolMap nodes ts es = .ok rest ∧ rs = r :: rest := by
  rw [poolMap] at h
  cases hp : process_element e nodes ts with
  | error u => rw [hp] at h; cases h
  | ok r =>
    rw [hp] at h
    cases hm : poolMap nodes ts es with
    | error u => rw [hm] at h; cases h
    | ok rest =>
      rw [hm] at h
      injection h with h'
      exact ⟨r, rest, rfl, rfl, h'.symm⟩

/-! ## Claim theorems -/

/-- C1: for every element whose node ids deduplicate to exactly 4 distinct
ids (and whose centroid is computable, per the data-model invariant that node
ids are resolvable), given at least one non-empty cluster, `process_element`
outputs a pair `(element_id, cluster_id)` whose cluster attains the minimum
nearest-point distance from the element's centroid over all non-empty
clusters; a cluster with zero points is never the winning cluster. -/
theorem assignment_selects_closest_nonempty_cluster
    (e : Element) (nodes : List Node) (cs : List (List Point)) (c : Point)
    (h4 : e.2.length = 4)
    (hc : find_element_center e nodes = .ok c)
    (hne : ∃ v ∈ cs, v ≠ []) :
    ∃ (k : ℕ) (v : List Point) (dv : ℚ),
      process_element e nodes (buildTrees cs) = .ok (some (e.1, (k : ℤ) + 1)) ∧
      cs.get? k = some v ∧ v ≠ [] ∧ kdQuery v c = some dv ∧
      ∀ (j : ℕ) (w : List Point) (dw : ℚ), cs.get? j = some w → w ≠ [] →
        kdQuery w c = some dw → dv ≤ dw := by
  obtain ⟨v0, hv0mem, hv0ne⟩ := hne
  obtain ⟨k0, hk0⟩ := List.mem_iff_get?.mp hv0mem
  have htree0 : (buildTrees cs).get? k0 = some (some v0) :=
    buildTrees_get?_of_ne cs k0 v0 hk0 hv0ne
  obtain ⟨d0, hd0⟩ := kdQuery_isSome v0 c hv0ne
  have hqd0 : qd c (some v0) = some d0 := hd0
  have hmem0 : (some v0) ∈ buildTrees cs := List.get?_mem htree0
  have himp : infDists c (buildTrees cs) < ⊤ :=
    lt_of_le_of_lt (infDists_le c _ _ hmem0 d0 hqd0) (WithTop.coe_lt_top d0)
  obtain ⟨k, t, d, hget, hqd, hmin, hscan, hfirst⟩ :=
    scanFrom_snd_improve c (buildTrees cs) 0 ⊤ (-1) himp
  obtain ⟨v, hv, hvne, ht⟩ := buildTrees_get?_inv cs k t c d hget hqd
  have hscan2 : (scanFrom c (buildTrees cs) 0 ⊤ (-1)).2 = (k : ℤ) + 1 := by
    rw [hscan]; push_cast; ring
  refine ⟨k, v, d, ?_, hv, hvne, by rw [ht] at hqd; exact hqd, ?_⟩
  · rw [process_element_center_ok hc, hscan2, if_pos (by omega)]
  · intro j w dw hw hwne hkw
    have htw : (buildTrees cs).get? j = some (some w) :=
      buildTrees_get?_of_ne cs j w hw hwne
    have hqw : qd c (some w) = some dw := hkw
    have : infDists c (buildTrees cs) ≤ (dw : WithTop ℚ) :=
      infDists_le c _ _ (List.get?_mem htw) dw hqw
    rw [← hmin] at this
    exact_mod_cast this

/-- C2: when two non-empty clusters are exactly equidistant from the
element's centroid and that distance is minimal, the engine assigns a cluster
no later than the earlier of the two in iteration order: the later
equidistant cluster never wins (first-encountered wins). -/
theorem tie_resolves_to_first_encountered
    (e : Element) (nodes : List Node) (cs : List (List Point)) (c : Point)
    (i j : ℕ) (v w : List Point) (d : ℚ)
    (hc : find_element_center e nodes = .ok c)
    (hij : i < j)
    (hvi : cs.get? i = some v) (hvne : v ≠ [])
    (hwj : cs.get? j = some w) (hwne : w ≠ [])
    (hdv : kdQuery v c = some d) (hdw : kdQuery w c = some d)
    (hmin : ∀ (l : ℕ) (u : List Point) (du : ℚ), cs.get? l = some u → u ≠ [] →
      kdQuery u c = some du → d ≤ du) :
    ∃ (cid : ℤ) (k : ℕ) (u : List Point),
      process_element e nodes (buildTrees cs) = .ok (some (e.1, cid)) ∧
      cid = (k : ℤ) + 1 ∧ k ≤ i ∧ cs.get? k = some u ∧ u ≠ [] ∧
      kdQuery u c = some d ∧ 1 ≤ cid ∧ cid ≠ (j : ℤ) + 1 := by
  have htreei : (buildTrees cs).get? i = some (some v) :=
    buildTrees_get?_of_ne cs i v hvi hvne
  have hqdi : qd c (some v) = some d := hdv
  have hile : infDists c (buildTrees cs) ≤ (d : WithTop ℚ) :=
    infDists_le c _ _ (List.get?_mem htreei) d hqdi
  have himp : infDists c (buildTrees cs) < ⊤ :=
    lt_of_le_of_lt hile (WithTop.coe_lt_top d)
  have hige : (d : WithTop ℚ) ≤ infDists c (buildTrees cs) := by
    apply le_infDists
    intro t ht du hqu
    obtain ⟨k0, hk0⟩ := List.mem_iff_get?.mp ht
    obtain ⟨u, hu, hune, htu⟩ := buildTrees_get?_inv cs k0 t c du hk0 hqu
    have : kdQuery u c = some du := by rw [htu] at hqu; exact hqu
    exact_mod_cast hmin k0 u du hu hune this
  have hieq : infDists c (buildTrees cs) = (d : WithTop ℚ) :=
    le_antisymm hile hige
  obtain ⟨k, t, dk, hget, hqd, hmink, hscan, hfirst⟩ :=
    scanFrom_snd_improve c (buildTrees cs) 0 ⊤ (-1) himp
  obtain ⟨u, hu, hune, ht⟩ := buildTrees_get?_inv cs k t c dk hget hqd
  have hdkd : dk = d := by
    have : (dk : WithTop ℚ) = (d : WithTop ℚ) := by rw [hmink, hieq]
    exact_mod_cast this
  have hdk : kdQuery u c = some d := by
    rw [ht] at hqd; rw [← hdkd]; exact hqd
  have hki : k ≤ i := by
    by_contra hcon
    push_neg at hcon
    have hlt : dk < d := hfirst i (some v) d hcon htreei hqdi
    rw [hdkd] at hlt
    exact absurd hlt (lt_irrefl d)
  have hscan2 : (scanFrom c (buildTrees cs) 0 ⊤ (-1)).2 = (k : ℤ) + 1 := by
    rw [hscan]; push_cast; ring
  refine ⟨(k : ℤ) + 1, k, u, ?_, rfl, hki, hu, hune, hdk, by omega, by omega⟩
  rw [process_element_center_ok hc, hscan2, if_pos (by omega)]

/-- C6 (amended): the emitted `cluster_id` is the 1-based position of the
winning cluster among *all* clusters in discovery order — empty clusters
occupy ordinal positions in this numbering too, although they never win. -/
theorem cluster_id_is_position_among_all_clusters
    (e : Element) (nodes : List Node) (cs : List (List Point)) (eid cid : ℤ)
    (h : process_element e nodes (buildTrees cs) = .ok (some (eid, cid))) :
    eid = e.1 ∧ ∃ k : ℕ, cid = (k : ℤ) + 1 ∧
      ∃ v, cs.get? k = some v ∧ v ≠ [] := by
  cases hfc : find_element_center e nodes with
  | error err =>
    cases err with
    | valueError => simp [process_element, hfc] at h
    | indexError => simp [process_element, hfc] at h
  | ok c =>
    rw [process_element_center_ok hfc] at h
    by_cases hr : (scanFrom c (buildTrees cs) 0 ⊤ (-1)).2 = -1
    · rw [if_neg (not_not.mpr hr)] at h
      simp at h
    · rw [if_pos hr] at h
      simp only [Except.ok.injEq, Option.some.injEq, Prod.mk.injEq] at h
      by_cases himp : infDists c (buildTrees cs) < ⊤
      · obtain ⟨k, t, d, hget, hqd, hmin, hscan, hfirst⟩ :=
          scanFrom_snd_improve c (buildTrees cs) 0 ⊤ (-1) himp
        obtain ⟨v, hv, hvne, ht⟩ := buildTrees_get?_inv cs k t c d hget hqd
        refine ⟨h.1.symm, k, ?_, v, hv, hvne⟩
        rw [← h.2, hscan]; push_cast; ring
      · exfalso
        apply hr
        apply scanFrom_snd_skip
        intro t ht d hd
        have h1 := infDists_le c _ t ht d hd
        have h2 : infDists c (buildTrees cs) = ⊤ := by
          by_contra hcon
          exact himp (lt_top_iff_ne_top.mpr hcon)
        rw [h2] at h1
        exact h1

/-- C4: for every element whose node ids deduplicate to fewer or more than 4
distinct ids, centroid computation fails with the invalid-geometry
(`ValueError`) condition, `process_element` catches it, emits one diagnostic,
returns `None` (so the element is excluded from the filtered result
sequence), and the pipeline over the remaining elements is unchanged — no
run-level abort. -/
theorem invalid_element_skipped_run_continues
    (e : Element) (nodes : List Node) (ts : List (Option (List Point)))
    (h : e.2.length ≠ 4) :
    find_element_center e nodes = .error .valueError ∧
    emitsDiagnostic e nodes = true ∧
    process_element e nodes ts = .ok none ∧
    ∀ xs ys : List Element,
      runPipeline (xs ++ e :: ys) nodes ts = runPipeline (xs ++ ys) nodes ts := by
  refine ⟨find_element_center_invalid nodes h, ?_,
    process_element_invalid nodes ts h, ?_⟩
  · simp only [emitsDiagnostic, find_element_center_invalid nodes h]
  · intro xs ys
    have hcons : poolMap nodes ts (e :: ys) =
        (poolMap nodes ts ys).map (fun ry => none :: ry) := by
      rw [poolMap, process_element_invalid nodes ts h]
      cases poolMap nodes ts ys with
      | error u => rfl
      | ok ry => rfl
    rw [runPipeline, runPipeline, poolMap_append, poolMap_append, hcons]
    cases poolMap nodes ts xs with
    | error u => rfl
    | ok rx =>
      cases poolMap nodes ts ys with
      | error u => rfl
      | ok ry =>
        simp only [Except.map, Except.bind]
        simp [List.filterMap_append]

/-- C7: the output sequence, after dropping excluded elements, preserves the
submission order: two elements that both produce a result appear in the
output in the same relative order as in the input. -/
theorem output_preserves_submission_order
    (xs ys zs : List Element) (a b : Element) (nodes : List Node)
    (ts : List (Option (List Point))) (res : List (ℤ × ℤ)) (ra rb : ℤ × ℤ)
    (hr : runPipeline (xs ++ a :: (ys ++ b :: zs)) nodes ts = .ok res)
    (ha : process_element a nodes ts = .ok (some ra))
    (hb : process_element b nodes ts = .ok (some rb)) :
    ∃ p q r : List (ℤ × ℤ), res = p ++ ra :: (q ++ rb :: r) := by
  rw [runPipeline] at hr
  cases hm : poolMap nodes ts (xs ++ a :: (ys ++ b :: zs)) with
  | error u => rw [hm] at hr; cases hr
  | ok results =>
    rw [hm] at hr
    injection hr with hres
    obtain ⟨rx, r1, hx, h1, hsplit1⟩ := poolMap_append_ok nodes ts hm
    obtain ⟨r0, rest1, hpa, hrest1, hsplit2⟩ := poolMap_cons_ok nodes ts h1
    have hr0 : r0 = some ra := by
      rw [ha] at hpa; injection hpa with h'; exact h'.symm
    obtain ⟨ry, r2, hy, h2, hsplit3⟩ := poolMap_append_ok nodes ts hrest1
    obtain ⟨r0', rz, hpb, hrz, hsplit4⟩ := poolMap_cons_ok nodes ts h2
    have hr0' : r0' = some rb := by
      rw [hb] at hpb; injection hpb with h'; exact h'.symm
    refine ⟨rx.filterMap id, ry.filterMap id, rz.filterMap id, ?_⟩
    rw [← hres, hsplit1, hsplit2, hsplit3, hsplit4, hr0, hr0']
    simp [List.filterMap_append]

/-- Node resolution is stable under permutation of the id list: it succeeds
on a permuted list exactly when it succeeds on the original, and the
resolved coordinates are correspondingly permuted. -/
theorem resolveNodes_perm (nodes : List Node) :
    ∀ {l l' : List ℤ}, l.Perm l' → ∀ cs, resolveNodes nodes l = some cs →
      ∃ cs', resolveNodes nodes l' = some cs' ∧ cs.Perm cs' := by
  intro l l' hp
  induction hp with
  | nil =>
    intro cs h
    exact ⟨cs, h, List.Perm.refl _⟩
  | @cons x l1 l2 hp2 ih =>
    intro cs h
    rw [resolveNodes] at h
    cases hg : pyGet? nodes (x - 1) with
    | none => rw [hg] at h; cases h
    | some nd =>
      rw [hg] at h
      cases hr : resolveNodes nodes l1 with
      | none => rw [hr] at h; cases h
      | some ps =>
        rw [hr] at h
        injection h with h'
        obtain ⟨ps', hps', hperm⟩ := ih ps hr
        refine ⟨nodeCoords nd :: ps', ?_, ?_⟩
        · rw [resolveNodes, hg, hps']
        · rw [← h']; exact hperm.cons _
  | swap x y l0 =>
    intro cs h
    rw [resolveNodes] at h
    cases hgy : pyGet? nodes (y - 1) with
    | none => rw [hgy] at h; cases h
    | some ndy =>
      rw [hgy] at h
      rw [resolveNodes] at h
      cases hgx : pyGet? nodes (x - 1) with
      | none => rw [hgx] at h; cases h
      | some ndx =>
        rw [hgx] at h
        cases hr : resolveNodes nodes l0 with
        | none => rw [hr] at h; cases h
        | some ps =>
          rw [hr] at h
          injection h with h'
          refine ⟨nodeCoords ndx :: nodeCoords ndy :: ps, ?_, ?_⟩
          · rw [resolveNodes, hgx, resolveNodes, hgy, hr]
          · rw [← h']; exact List.Perm.swap _ _ _
  | trans hp1 hp2 ih1 ih2 =>
    intro cs h
    obtain ⟨cs1, h1, hperm1⟩ := ih1 cs h
    obtain ⟨cs2, h2, hperm2⟩ := ih2 cs1 h1
    exact ⟨cs2, h2, hperm1.trans hperm2⟩

/-- The componentwise mean is invariant under permutation of the points. -/
theorem centerOf_perm {cs cs' : List Point} (hp : cs.Perm cs') :
    centerOf cs = centerOf cs' := by
  unfold centerOf
  rw [hp.length_eq, (hp.map _).sum_eq, (hp.map _).sum_eq, (hp.map _).sum_eq]

/-- C8: for an element with exactly 4 distinct resolvable node ids, the
computed centroid is independent of the order in which the ids appear:
permuting the id list yields an equal centroid. -/
theorem centroid_independent_of_id_order
    (eid : ℤ) (l l' : List ℤ) (nodes : List Node) (c : Point)
    (hperm : l.Perm l') (hnodup : l.Nodup) (h4 : l.length = 4)
    (hok : find_element_center (eid, l) nodes = .ok c) :
    find_element_center (eid, l') nodes = .ok c := by
  simp only [find_element_center] at hok ⊢
  rw [if_neg (by simp [h4])] at hok
  rw [if_neg (by simp [← hperm.length_eq, h4])]
  cases hr : resolveNodes nodes l with
  | none => rw [hr] at hok; cases hok
  | some cs0 =>
    rw [hr] at hok
    injection hok with h'
    obtain ⟨cs', hcs', hp⟩ := resolveNodes_perm nodes hperm cs0 hr
    rw [hcs', ← h', centerOf_perm hp]

/-- C3: for an element record with 4 distinct node ids, each resolvable at
position `node_id - 1` of the node sequence, the centroid is the
componentwise arithmetic mean of the 4 coordinate triples. -/
theorem centroid_is_mean_of_resolved_nodes
    (eid a b c d : ℤ) (nodes : List Node) (na nb nc nd : Node)
    (hnodup : ([a, b, c, d] : List ℤ).Nodup)
    (ha1 : 1 ≤ a) (hb1 : 1 ≤ b) (hc1 : 1 ≤ c) (hd1 : 1 ≤ d)
    (hna : nodes.get? (a - 1).toNat = some na)
    (hnb : nodes.get? (b - 1).toNat = some nb)
    (hnc : nodes.get? (c - 1).toNat = some nc)
    (hnd : nodes.get? (d - 1).toNat = some nd) :
    find_element_center (eid, [a, b, c, d]) nodes =
      .ok ((na.2.1 + nb.2.1 + nc.2.1 + nd.2.1) / 4,
           (na.2.2.1 + nb.2.2.1 + nc.2.2.1 + nd.2.2.1) / 4,
           (na.2.2.2 + nb.2.2.2 + nc.2.2.2 + nd.2.2.2) / 4) := by
  have hga : pyGet? nodes (a - 1) = some na := by
    rw [pyGet?, if_pos (by omega)]; exact hna
  have hgb : pyGet? nodes (b - 1) = some nb := by
    rw [pyGet?, if_pos (by omega)]; exact hnb
  have hgc : pyGet? nodes (c - 1) = some nc := by
    rw [pyGet?, if_pos (by omega)]; exact hnc
  have hgd : pyGet? nodes (d - 1) = some nd := by
    rw [pyGet?, if_pos (by omega)]; exact hnd
  simp only [find_element_center, resolveNodes, hga, hgb, hgc, hgd]
  rw [if_neg (by simp)]
  simp only [centerOf, nodeCoords, List.map_cons, List.map_nil, List.sum_cons,
    List.sum_nil, List.length_cons, List.length_nil, Except.ok.injEq,
    Prod.mk.injEq]
  norm_num
  refine ⟨by ring, by ring, by ring⟩

/-- Resolution fails outright if any listed id is unresolvable. -/
theorem resolveNodes_none_of_bad (nodes : List Node) :
    ∀ (l : List ℤ) (i : ℤ), i ∈ l → pyGet? nodes (i - 1) = none →
      resolveNodes nodes l = none := by
  intro l
  induction l with
  | nil => intro i hi; cases hi
  | cons j l ih =>
    intro i hi hbad
    rcases List.mem_cons.mp hi with h | h
    · subst h
      rw [resolveNodes, hbad]
    · rw [resolveNodes]
      cases pyGet? nodes (j - 1) with
      | none => rfl
      | some nd => rw [ih i h hbad]

/-- Resolution succeeds when every listed id is resolvable. -/
theorem resolveNodes_some_of_good (nodes : List Node) :
    ∀ l : List ℤ, (∀ i ∈ l, ∃ nd, pyGet? nodes (i - 1) = some nd) →
      ∃ cs, resolveNodes nodes l = some cs := by
  intro l
  induction l with
  | nil => intro _; exact ⟨[], rfl⟩
  | cons j l ih =>
    intro h
    obtain ⟨nd, hnd⟩ := h j (List.mem_cons_self _ _)
    obtain ⟨cs, hcs⟩ := ih fun i hi => h i (List.mem_cons_of_mem _ hi)
    exact ⟨nodeCoords nd :: cs, by rw [resolveNodes, hnd, hcs]⟩

/-- Python indexing succeeds for any index in `[-len, len)`, wrapping
negative indices from the end. -/
theorem pyGet?_isSome {α : Type} (l : List α) (i : ℤ)
    (hlo : -(l.length : ℤ) ≤ i) (hhi : i < (l.length : ℤ)) :
    ∃ a, pyGet? l i = some a := by
  by_cases h0 : 0 ≤ i
  · rw [pyGet?, if_pos h0]
    have hlt : i.toNat < l.length := by omega
    exact ⟨l.get ⟨i.toNat, hlt⟩, List.get?_eq_get hlt⟩
  · rw [pyGet?, if_neg h0, if_pos hlo]
    have : ((l.length : ℤ) + i).toNat < l.length := by omega
    exact ⟨l.get ⟨_, this⟩, List.get?_eq_get this⟩

/-- Python indexing wraps a negative index from the end of the list. -/
theorem pyGet?_neg {α : Type} (l : List α) (i : ℤ) (hneg : i < 0) :
    pyGet? l i = if -(l.length : ℤ) ≤ i
      then l.get? ((l.length : ℤ) + i).toNat else none := by
  rw [pyGet?, if_neg (by omega)]

/-- C9 (amended): in an element with exactly 4 distinct ids, a node id
greater than the node count raises an uncaught `IndexError` that propagates
out of the worker (it is not handled by the skip-and-diagnose path, which
catches only `ValueError`); a node id equal to 0, or negative but within
Python's negative-indexing range (`node_id - 1 ≥ -len(nodes)`), raises no
error at all — every such id resolves by indexing from the end, so a
centroid is silently computed from unintended nodes; a negative id below
that range also raises the uncaught `IndexError`. -/
theorem out_of_range_ids_amended :
    (∀ (e : Element) (nodes : List Node) (ts : List (Option (List Point))),
        e.2.length = 4 → (∃ i ∈ e.2, (nodes.length : ℤ) < i) →
        find_element_center e nodes = .error .indexError ∧
        process_element e nodes ts = .error ()) ∧
    (∀ (e : Element) (nodes : List Node),
        e.2.length = 4 →
        (∀ i ∈ e.2, 1 - (nodes.length : ℤ) ≤ i ∧ i ≤ (nodes.length : ℤ)) →
        ∃ c, find_element_center e nodes = .ok c) ∧
    (∀ (nodes : List Node) (i : ℤ), i ≤ 0 → -(nodes.length : ℤ) ≤ i - 1 →
        pyGet? nodes (i - 1) = nodes.get? ((nodes.length : ℤ) + (i - 1)).toNat) ∧
    (∀ (e : Element) (nodes : List Node) (ts : List (Option (List Point))),
        e.2.length = 4 → (∃ i ∈ e.2, i - 1 < -(nodes.length : ℤ)) →
        find_element_center e nodes = .error .indexError ∧
        process_element e nodes ts = .error ()) := by
  have hbig : ∀ (nodes : List Node) (i : ℤ), (nodes.length : ℤ) < i →
      pyGet? nodes (i - 1) = none := by
    intro nodes i hi
    rw [pyGet?, if_pos (by omega)]
    exact List.get?_eq_none.mpr (by omega)
  have hlow : ∀ (nodes : List Node) (i : ℤ), i - 1 < -(nodes.length : ℤ) →
      pyGet? nodes (i - 1) = none := by
    intro nodes i hi
    rw [pyGet?, if_neg (by omega), if_neg (by omega)]
  have herr : ∀ (e : Element) (nodes : List Node)
      (ts : List (Option (List Point))), e.2.length = 4 →
      (∃ i ∈ e.2, pyGet? nodes (i - 1) = none) →
      find_element_center e nodes = .error .indexError ∧
      process_element e nodes ts = .error () := by
    intro e nodes ts h4 ⟨i, hi, hbad⟩
    have hres : resolveNodes nodes e.2 = none :=
      resolveNodes_none_of_bad nodes e.2 i hi hbad
    have hfc : find_element_center e nodes = .error .indexError := by
      rw [find_element_center, if_neg (by simp [h4]), hres]
    exact ⟨hfc, by simp only [process_element, hfc]⟩
  refine ⟨?_, ?_, ?_, ?_⟩
  · intro e nodes ts h4 ⟨i, hi, hbig'⟩
    exact herr e nodes ts h4 ⟨i, hi, hbig nodes i hbig'⟩
  · intro e nodes h4 hall
    obtain ⟨cs, hcs⟩ := resolveNodes_some_of_good nodes e.2 fun i hi => by
      obtain ⟨hlo, hhi⟩ := hall i hi
      exact pyGet?_isSome nodes (i - 1) (by omega) (by omega)
    refine ⟨centerOf cs, ?_⟩
    rw [find_element_center, if_neg (by simp [h4]), hcs]
  · intro nodes i hle hlo
    rw [pyGet?_neg nodes (i - 1) (by omega), if_pos hlo]
  · intro e nodes ts h4 ⟨i, hi, hlow'⟩
    exact herr e nodes ts h4 ⟨i, hi, hlow nodes i hlow'⟩

/-- C9 counterexample: the claim says a node id equal to 0 or negative never
raises an error; but with 4 nodes, node id `-4` gives Python index `-5`,
outside the negative-indexing range, and raises the uncaught `IndexError`,
which propagates out of `process_element`. -/
theorem negative_id_can_still_raise :
    find_element_center (1, [-4, 2, 3, 4])
        [(1, 0, 0, 0), (2, 1, 0, 0), (3, 0, 1, 0), (4, 0, 0, 1)]
      = .error .indexError ∧
    process_element (1, [-4, 2, 3, 4])
        [(1, 0, 0, 0), (2, 1, 0, 0), (3, 0, 1, 0), (4, 0, 0, 1)] []
      = .error () :=
  ⟨rfl, rfl⟩

/-- C10: an element line with at least 11 but fewer than 19 fields parses
without aborting: the `[11:19]` slice silently yields the fields present,
the record carries fewer than 8 candidate ids, and if they deduplicate to
other than 4 ids the element is later excluded through the per-element
invalid-geometry path, not at parse time. -/
theorem short_element_line_parses
    (pre : List ℚ) (eid : ℤ) (nids : List ℤ)
    (hpre : pre.length = 10) (hlen : nids.length < 8) :
    (wfElemLine (pre, eid, nids)).length = 11 + nids.length ∧
    (wfElemLine (pre, eid, nids)).length < 19 ∧
    11 ≤ (wfElemLine (pre, eid, nids)).length ∧
    parseElemLine (wfElemLine (pre, eid, nids)) = some (eid, dedupFirst nids) ∧
    ∀ (nodes : List Node) (ts : List (Option (List Point))),
      (dedupFirst nids).length ≠ 4 →
      process_element (eid, dedupFirst nids) nodes ts = .ok none := by
  have hlength : (wfElemLine (pre, eid, nids)).length = 11 + nids.length := by
    simp only [wfElemLine, List.length_append, List.length_cons,
      List.length_map, hpre]
    omega
  have hget : (wfElemLine (pre, eid, nids)).get? 10 = some ((eid : ℚ)) := by
    simp only [wfElemLine]
    rw [List.get?_append_right (by omega)]
    simp only [hpre, Nat.sub_self, List.get?]
  have hdrop : (wfElemLine (pre, eid, nids)).drop 11
      = nids.map (fun (i : ℤ) => (i : ℚ)) := by
    have hsh : wfElemLine (pre, eid, nids) =
        (pre ++ [(eid : ℚ)]) ++ nids.map (fun (i : ℤ) => (i : ℚ)) := by
      simp only [wfElemLine, List.append_assoc, List.singleton_append]
    rw [hsh, List.drop_left' (by rw [List.length_append, hpre]; rfl)]
  have htake : (nids.map (fun (i : ℤ) => (i : ℚ))).take 8
      = nids.map (fun (i : ℤ) => (i : ℚ)) := by
    apply List.take_of_length_le
    rw [List.length_map]
    omega
  refine ⟨hlength, by omega, by omega, ?_, ?_⟩
  · simp only [parseElemLine, hget, parseInt_intCast, hdrop, htake,
      parseIntList_map]
  · intro nodes ts hne
    exact process_element_invalid nodes ts hne

/-- C5: a well-formed stream — a header declaring `N` and `M`, `N` node
lines, one separator line (skipped), `M` element lines with the element id
at 0-based field index 10 and candidate node ids at fields 11–18 — parses to
exactly `N` nodes and `M` element records, with the candidate ids
deduplicated preserving order of first appearance. -/
theorem parser_returns_declared_counts_and_fields
    (N M : ℕ) (nd : List Node) (ed : List (List ℚ × ℤ × List ℤ))
    (sep : List ℚ) (rest : List (List ℚ))
    (hN : nd.length = N) (hM : ed.length = M)
    (hed : ∀ x ∈ ed, x.1.length = 10 ∧ x.2.2.length = 8) :
    ∃ nodes elems, read_mesh_file
        (((N : ℚ) :: (M : ℚ) :: []) ::
          (nd.map wfNodeLine ++ sep :: (ed.map wfElemLine ++ rest)))
      = some ((N : ℤ), (M : ℤ), nodes, elems) ∧
    nodes = nd ∧ nodes.length = N ∧
    elems = ed.map (fun x => (x.2.1, dedupFirst x.2.2)) ∧ elems.length = M ∧
    ∀ x ∈ ed, (dedupFirst x.2.2).Nodup ∧ (dedupFirst x.2.2).Sublist x.2.2 ∧
      (∀ i : ℤ, i ∈ dedupFirst x.2.2 ↔ i ∈ x.2.2) ∧
      (dedupFirst x.2.2).Pairwise
        (fun a b => x.2.2.indexOf a < x.2.2.indexOf b) := by
  refine ⟨nd, ed.map (fun x => (x.2.1, dedupFirst x.2.2)),
    read_mesh_file_wf N M nd ed sep rest hN hM hed, rfl, hN, rfl,
    by rw [List.length_map, hM], ?_⟩
  intro x hx
  exact ⟨dedupFirst_nodup _, dedupFirst_sublist _, fun i => mem_dedupFirst i _,
    dedupFirst_first_occurrence _⟩

/-- C6 counterexample: with clusters `[[], [(0,0,0)]]` (the first empty) and
an element whose centroid is the origin, the engine outputs cluster id 2,
but the winning cluster is the *first* non-empty cluster, whose 1-based
ordinal among the non-empty clusters is 1: empty clusters do occupy ordinal
positions in the code's numbering. -/
theorem cluster_id_counts_empty_clusters :
    process_element (1, [1, 2, 3, 4])
        [(1, 0, 0, 0), (2, 0, 0, 0), (3, 0, 0, 0), (4, 0, 0, 0)]
        (buildTrees [[], [(0, 0, 0)]]) = .ok (some (1, 2)) ∧
    nonemptyOrdinal [[], [(0, 0, 0)]] 1 = 1 ∧ (2 : ℤ) ≠ (1 : ℤ) :=
  ⟨rfl, rfl, by decide⟩

/-! ## Concrete witnesses -/

/-- Witness for C1: the cluster containing the centroid beats the far one. -/
theorem assignment_selects_closest_nonempty_cluster_witness :
    ∃ (k : ℕ) (v : List Point) (dv : ℚ),
      process_element (1, [1, 2, 3, 4])
          [(1, 0, 0, 0), (2, 1, 0, 0), (3, 0, 1, 0), (4, 0, 0, 1)]
          (buildTrees [[(5, 5, 5)], [(0, 0, 0)]])
        = .ok (some (1, (k : ℤ) + 1)) ∧
      ([[(5, 5, 5)], [(0, 0, 0)]] : List (List Point)).get? k = some v ∧
      v ≠ [] ∧ kdQuery v (1/4, 1/4, 1/4) = some dv ∧
      ∀ (j : ℕ) (w : List Point) (dw : ℚ),
        ([[(5, 5, 5)], [(0, 0, 0)]] : List (List Point)).get? j = some w →
        w ≠ [] → kdQuery w (1/4, 1/4, 1/4) = some dw → dv ≤ dw :=
  assignment_selects_closest_nonempty_cluster (1, [1, 2, 3, 4])
    [(1, 0, 0, 0), (2, 1, 0, 0), (3, 0, 1, 0), (4, 0, 0, 1)]
    [[(5, 5, 5)], [(0, 0, 0)]] (1/4, 1/4, 1/4)
    (by with_unfolding_all rfl) (by with_unfolding_all rfl)
    ⟨[(0, 0, 0)], by decide, by decide⟩

/-- Witness for C2: two equidistant non-empty clusters, the first wins. -/
theorem tie_resolves_to_first_encountered_witness :
    ∃ (cid : ℤ) (k : ℕ) (u : List Point),
      process_element (2, [1, 2, 3, 4])
        [(1, 0, 0, 0), (2, 0, 0, 0), (3, 0, 0, 0), (4, 0, 0, 0)]
        (buildTrees [[(0, 0, 0)], [(0, 0, 0)]]) = .ok (some (2, cid)) ∧
      cid = (k : ℤ) + 1 ∧ k ≤ 0 ∧
      ([[(0, 0, 0)], [(0, 0, 0)]] : List (List Point)).get? k = some u ∧
      u ≠ [] ∧ kdQuery u (0, 0, 0) = some 0 ∧
      1 ≤ cid ∧ cid ≠ ((1 : ℕ) : ℤ) + 1 :=
  tie_resolves_to_first_encountered (2, [1, 2, 3, 4])
    [(1, 0, 0, 0), (2, 0, 0, 0), (3, 0, 0, 0), (4, 0, 0, 0)]
    [[(0, 0, 0)], [(0, 0, 0)]] (0, 0, 0) 0 1 [(0, 0, 0)] [(0, 0, 0)] 0
    (by with_unfolding_all rfl) (by decide) (by decide) (by decide)
    (by decide) (by decide)
    (by with_unfolding_all rfl) (by with_unfolding_all rfl)
    (fun l u du _ _ hq => kdQuery_nonneg u _ du hq)

/-- Witness for C3: centroid of nodes 1–4 of a concrete mesh. -/
theorem centroid_is_mean_of_resolved_nodes_witness :
    find_element_center (7, [1, 2, 3, 4])
        [(1, 0, 0, 0), (2, 1, 0, 0), (3, 0, 1, 0), (4, 0, 0, 1)] =
      .ok ((0 + 1 + 0 + 0) / 4, (0 + 0 + 1 + 0) / 4, (0 + 0 + 0 + 1) / 4) :=
  centroid_is_mean_of_resolved_nodes 7 1 2 3 4
    [(1, 0, 0, 0), (2, 1, 0, 0), (3, 0, 1, 0), (4, 0, 0, 1)]
    (1, 0, 0, 0) (2, 1, 0, 0) (3, 0, 1, 0) (4, 0, 0, 1)
    (by decide) (by decide) (by decide) (by decide) (by decide)
    (by rfl) (by rfl) (by rfl) (by rfl)

/-- Witness for C4: a 3-id element is diagnosed, skipped, and dropping it
leaves the pipeline result unchanged. -/
theorem invalid_element_skipped_run_continues_witness :
    find_element_center ((9 : ℤ), [1, 2, 3]) [] = .error .valueError ∧
    emitsDiagnostic ((9 : ℤ), [1, 2, 3]) [] = true ∧
    process_element ((9 : ℤ), [1, 2, 3]) [] [] = .ok none ∧
    runPipeline [((9 : ℤ), [1, 2, 3])] [] [] = runPipeline [] [] [] :=
  ⟨(invalid_element_skipped_run_continues (9, [1, 2, 3]) [] [] (by decide)).1,
   (invalid_element_skipped_run_continues (9, [1, 2, 3]) [] [] (by decide)).2.1,
   (invalid_element_skipped_run_continues (9, [1, 2, 3]) [] [] (by decide)).2.2.1,
   (invalid_element_skipped_run_continues (9, [1, 2, 3]) [] [] (by decide)).2.2.2
     [] []⟩

/-- Witness for C5: a 1-node, 1-element well-formed stream. -/
theorem parser_returns_declared_counts_and_fields_witness :
    ∃ nodes elems, read_mesh_file
        ((((1 : ℕ) : ℚ) :: ((1 : ℕ) : ℚ) :: []) ::
          (([((1 : ℤ), (0 : ℚ), 0, 0)].map wfNodeLine) ++ [] ::
            (([([0, 0, 0, 0, 0, 0, 0, 0, 0, 0],
                (7 : ℤ), [1, 1, 2, 2, 1, 1, 2, 2])].map wfElemLine) ++ [])))
      = some ((((1 : ℕ)) : ℤ), (((1 : ℕ)) : ℤ), nodes, elems) ∧
    nodes = [((1 : ℤ), (0 : ℚ), 0, 0)] ∧ nodes.length = 1 ∧
    elems = ([(([0, 0, 0, 0, 0, 0, 0, 0, 0, 0] : List ℚ),
        (7 : ℤ), [1, 1, 2, 2, 1, 1, 2, 2])] : List (List ℚ × ℤ × List ℤ)).map
      (fun x => (x.2.1, dedupFirst x.2.2)) ∧
    elems.length = 1 ∧
    ∀ x ∈ ([(([0, 0, 0, 0, 0, 0, 0, 0, 0, 0] : List ℚ),
        (7 : ℤ), [1, 1, 2, 2, 1, 1, 2, 2])] : List (List ℚ × ℤ × List ℤ)),
      (dedupFirst x.2.2).Nodup ∧ (dedupFirst x.2.2).Sublist x.2.2 ∧
      (∀ i : ℤ, i ∈ dedupFirst x.2.2 ↔ i ∈ x.2.2) ∧
      (dedupFirst x.2.2).Pairwise
        (fun a b => x.2.2.indexOf a < x.2.2.indexOf b) :=
  parser_returns_declared_counts_and_fields 1 1 [((1 : ℤ), (0 : ℚ), 0, 0)]
    [([0, 0, 0, 0, 0, 0, 0, 0, 0, 0], (7 : ℤ), [1, 1, 2, 2, 1, 1, 2, 2])]
    [] [] rfl rfl
    (by
      intro x hx
      rw [List.mem_singleton] at hx
      subst hx
      exact ⟨rfl, rfl⟩)

/-- Witness for C6 (amended): a single non-empty cluster wins with id 1. -/
theorem cluster_id_is_position_among_all_clusters_witness :
    (1 : ℤ) = (1 : ℤ) ∧ ∃ k : ℕ, (1 : ℤ) = (k : ℤ) + 1 ∧
      ∃ v, ([[(2, 0, 0)]] : List (List Point)).get? k = some v ∧ v ≠ [] :=
  cluster_id_is_position_among_all_clusters (1, [1, 2, 3, 4])
    [(1, 0, 0, 0), (2, 0, 0, 0), (3, 0, 0, 0), (4, 0, 0, 0)]
    [[(2, 0, 0)]] 1 1 (by rfl)

/-- Witness for C7: two elements both assigned, results in submission
order. -/
theorem output_preserves_submission_order_witness :
    ∃ p q r : List (ℤ × ℤ),
      [((1 : ℤ), (1 : ℤ)), ((2 : ℤ), (1 : ℤ))] =
        p ++ ((1 : ℤ), (1 : ℤ)) :: (q ++ ((2 : ℤ), (1 : ℤ)) :: r) :=
  output_preserves_submission_order [] [] [] (1, [1, 2, 3, 4]) (2, [1, 2, 3, 4])
    [(1, 0, 0, 0), (2, 0, 0, 0), (3, 0, 0, 0), (4, 0, 0, 0)]
    (buildTrees [[(0, 0, 0)]]) [(1, 1), (2, 1)] (1, 1) (2, 1)
    (by rfl) (by rfl) (by rfl)

/-- Witness for C8: reversing the node-id order leaves the centroid
unchanged. -/
theorem centroid_independent_of_id_order_witness :
    find_element_center (5, [4, 3, 2, 1])
        [(1, 0, 0, 0), (2, 1, 0, 0), (3, 0, 1, 0), (4, 0, 0, 1)] =
      .ok (1/4, 1/4, 1/4) :=
  centroid_independent_of_id_order 5 [1, 2, 3, 4] [4, 3, 2, 1]
    [(1, 0, 0, 0), (2, 1, 0, 0), (3, 0, 1, 0), (4, 0, 0, 1)] (1/4, 1/4, 1/4)
    (by decide) (by decide) (by with_unfolding_all rfl)
    (by with_unfolding_all rfl)

/-- Witness for C9 (amended): id 9 > 4 propagates an `IndexError`; ids 0 and
`-1` resolve silently from the end; id `-5` also propagates. -/
theorem out_of_range_ids_amended_witness :
    (find_element_center (1, [9, 2, 3, 4])
        [(1, 0, 0, 0), (2, 1, 0, 0), (3, 0, 1, 0), (4, 0, 0, 1)]
      = .error .indexError ∧
     process_element (1, [9, 2, 3, 4])
        [(1, 0, 0, 0), (2, 1, 0, 0), (3, 0, 1, 0), (4, 0, 0, 1)] []
      = .error ()) ∧
    (∃ c, find_element_center (1, [0, -1, 2, 3])
        [(1, 0, 0, 0), (2, 1, 0, 0), (3, 0, 1, 0), (4, 0, 0, 1)] = .ok c) ∧
    pyGet? ([(1, 0, 0, 0), (2, 1, 0, 0), (3, 0, 1, 0), (4, 0, 0, 1)] : List Node)
        ((0 : ℤ) - 1) = some ((4 : ℤ), (0 : ℚ), 0, 1) ∧
    (find_element_center (1, [-5, 2, 3, 4])
        [(1, 0, 0, 0), (2, 1, 0, 0), (3, 0, 1, 0), (4, 0, 0, 1)]
      = .error .indexError ∧
     process_element (1, [-5, 2, 3, 4])
        [(1, 0, 0, 0), (2, 1, 0, 0), (3, 0, 1, 0), (4, 0, 0, 1)] []
      = .error ()) :=
  ⟨out_of_range_ids_amended.1 (1, [9, 2, 3, 4]) _ [] (by rfl)
      ⟨9, by decide, by decide⟩,
   out_of_range_ids_amended.2.1 (1, [0, -1, 2, 3]) _ (by rfl) (by decide),
   (out_of_range_ids_amended.2.2.1
     ([(1, 0, 0, 0), (2, 1, 0, 0), (3, 0, 1, 0), (4, 0, 0, 1)] : List Node)
     0 (by decide) (by decide)).trans (by rfl),
   out_of_range_ids_amended.2.2.2 (1, [-5, 2, 3, 4]) _ [] (by rfl)
      ⟨-5, by decide, by decide⟩⟩

/-- Witness for C10: a 14-field element line (10 + id + 3 candidates). -/
theorem short_element_line_parses_witness :
    (wfElemLine ([0, 0, 0, 0, 0, 0, 0, 0, 0, 0], (3 : ℤ), [1, 1, 2])).length
      = 11 + 3 ∧
    (wfElemLine ([0, 0, 0, 0, 0, 0, 0, 0, 0, 0], (3 : ℤ), [1, 1, 2])).length
      < 19 ∧
    11 ≤ (wfElemLine ([0, 0, 0, 0, 0, 0, 0, 0, 0, 0], (3 : ℤ), [1, 1, 2])).length ∧
    parseElemLine (wfElemLine ([0, 0, 0, 0, 0, 0, 0, 0, 0, 0], (3 : ℤ), [1, 1, 2]))
      = some (3, dedupFirst [1, 1, 2]) ∧
    process_element ((3 : ℤ), dedupFirst [1, 1, 2]) [] [] = .ok none :=
  ⟨(short_element_line_parses ([0, 0, 0, 0, 0, 0, 0, 0, 0, 0] : List ℚ)
      3 [1, 1, 2] (by rfl) (by decide)).1,
   (short_element_line_parses ([0, 0, 0, 0, 0, 0, 0, 0, 0, 0] : List ℚ)
      3 [1, 1, 2] (by rfl) (by decide)).2.1,
   (short_element_line_parses ([0, 0, 0, 0, 0, 0, 0, 0, 0, 0] : List ℚ)
      3 [1, 1, 2] (by rfl) (by decide)).2.2.1,
   (short_element_line_parses ([0, 0, 0, 0, 0, 0, 0, 0, 0, 0] : List ℚ)
      3 [1, 1, 2] (by rfl) (by decide)).2.2.2.1,
   (short_element_line_parses ([0, 0, 0, 0, 0, 0, 0, 0, 0, 0] : List ℚ)
      3 [1, 1, 2] (by rfl) (by decide)).2.2.2.2 [] [] (by decide)⟩

end ReadPy
